import Mathlib

/-!
Verification of `research/deeplab/utils/demon/utils/vis.py`.

The module renders point clouds unprojected from depth maps together with
camera frustum glyphs.  The numeric core embedded here:

* `angleaxis_to_rotation_matrix` — Rodrigues conversion from the axis-angle
  representation to a 3x3 rotation matrix (vis.py lines 22-42);
* `create_camera_actor` — the world-space placement of the 11 fixed camera
  glyph vertices (vis.py lines 72-87);
* `transform_pointcloud_points` — application of a 4x4 homogeneous transform
  to an n x 3 point array (vis.py lines 375-389);
* the scene composers `visualize_depths` (lines 189-236) and
  `visualize_prediction` (lines 275-333), modelled up to the point where the
  assembled data is handed to the VTK renderer.

Floating-point scalars are modelled as real numbers, so algebraic claims are
settled exactly over `ℝ`.
-/

open Matrix

noncomputable section

/-- Local variable `angle` of `angleaxis_to_rotation_matrix`
(vis.py line 29): `angle = np.sqrt(aa.dot(aa))`. -/
def aaAngle (aa : Fin 3 → ℝ) : ℝ :=
  Real.sqrt (aa 0 * aa 0 + aa 1 * aa 1 + aa 2 * aa 2)

/-- Local variable `u` of `angleaxis_to_rotation_matrix` (vis.py line 34):
`u = np.array([aa[0]/angle, aa[1]/angle, aa[2]/angle])`. -/
def aaUnit (aa : Fin 3 → ℝ) : Fin 3 → ℝ :=
  ![aa 0 / aaAngle aa, aa 1 / aaAngle aa, aa 2 / aaAngle aa]

/-- Entrywise matrix assembled by `angleaxis_to_rotation_matrix`
(vis.py lines 36-39), as a function of the unit axis components and of
`c = cos(angle)`, `s = sin(angle)`. -/
def rodriguesMatrix (u0 u1 u2 c s : ℝ) : Matrix (Fin 3) (Fin 3) ℝ :=
  !![c + u0*u0*(1-c), u0*u1*(1-c) - u2*s, u0*u2*(1-c) + u1*s;
     u1*u0*(1-c) + u2*s, c + u1*u1*(1-c), u1*u2*(1-c) - u0*s;
     u2*u0*(1-c) - u1*s, u2*u1*(1-c) + u0*s, c + u2*u2*(1-c)]

/-- Embedding of `angleaxis_to_rotation_matrix` (vis.py lines 22-42):
if `angle > 1e-6` build the Rodrigues matrix from the normalized axis and
the sine/cosine of the angle, otherwise return `np.eye(3)`. -/
def angleaxis_to_rotation_matrix (aa : Fin 3 → ℝ) : Matrix (Fin 3) (Fin 3) ℝ :=
  if 1e-6 < aaAngle aa then
    rodriguesMatrix (aaUnit aa 0) (aaUnit aa 1) (aaUnit aa 2)
      (Real.cos (aaAngle aa)) (Real.sin (aaAngle aa))
  else 1

/-- C3: for every axis-angle input whose Euclidean norm is at most `1e-6`,
`angleaxis_to_rotation_matrix` returns exactly the 3x3 identity matrix
(the guarded branch never divides by the angle, and the function is total). -/
theorem angleaxis_small_angle_is_identity (aa : Fin 3 → ℝ)
    (h : Real.sqrt (aa 0 * aa 0 + aa 1 * aa 1 + aa 2 * aa 2) ≤ 1e-6) :
    angleaxis_to_rotation_matrix aa = 1 := by
  have hle : aaAngle aa ≤ 1e-6 := h
  unfold angleaxis_to_rotation_matrix
  rw [if_neg (not_lt.mpr hle)]

/-- Witness for C3 at the zero vector. -/
theorem angleaxis_small_angle_is_identity_witness :
    Real.sqrt ((![(0:ℝ), 0, 0]) 0 * (![(0:ℝ), 0, 0]) 0 +
        (![(0:ℝ), 0, 0]) 1 * (![(0:ℝ), 0, 0]) 1 +
        (![(0:ℝ), 0, 0]) 2 * (![(0:ℝ), 0, 0]) 2) ≤ 1e-6 ∧
    angleaxis_to_rotation_matrix ![(0:ℝ), 0, 0] = 1 := by
  have h : Real.sqrt ((![(0:ℝ), 0, 0]) 0 * (![(0:ℝ), 0, 0]) 0 +
      (![(0:ℝ), 0, 0]) 1 * (![(0:ℝ), 0, 0]) 1 +
      (![(0:ℝ), 0, 0]) 2 * (![(0:ℝ), 0, 0]) 2) ≤ 1e-6 := by
    norm_num
  exact ⟨h, angleaxis_small_angle_is_identity ![(0:ℝ), 0, 0] h⟩

/-- C2 counterexample: the claim assigns the plus sign on `u[k]*s` to even
permutations `(i,j,k)` of `(0,1,2)`.  At `aa = (0,0,1)` and the even
permutation `(0,1,2)` the code yields `R[0][1] = -sin 1`, not `+sin 1`. -/
theorem angleaxis_entry_sign_counterexample :
    ¬ (angleaxis_to_rotation_matrix ![(0:ℝ), 0, 1] 0 1 =
        aaUnit ![(0:ℝ), 0, 1] 0 * aaUnit ![(0:ℝ), 0, 1] 1 *
          (1 - Real.cos (aaAngle ![(0:ℝ), 0, 1])) +
        aaUnit ![(0:ℝ), 0, 1] 2 * Real.sin (aaAngle ![(0:ℝ), 0, 1])) := by
  have hangle : aaAngle ![(0:ℝ), 0, 1] = 1 := by
    norm_num [aaAngle]
  have hu0 : aaUnit ![(0:ℝ), 0, 1] 0 = 0 := by
    simp [aaUnit, hangle]
  have hu2 : aaUnit ![(0:ℝ), 0, 1] 2 = 1 := by
    simp [aaUnit, hangle]
  have hsin : 0 < Real.sin 1 :=
    Real.sin_pos_of_pos_of_lt_pi (by norm_num) (by linarith [Real.pi_gt_three])
  have hR : angleaxis_to_rotation_matrix ![(0:ℝ), 0, 1] 0 1 = -Real.sin 1 := by
    unfold angleaxis_to_rotation_matrix
    rw [if_pos (by rw [hangle]; norm_num)]
    simp [rodriguesMatrix, hu0, hu2, hangle]
  rw [hR, hu0, hu2, hangle]
  intro hc
  rw [zero_mul, zero_mul, one_mul] at hc
  linarith

/-- C2 (amended): for every axis-angle input with norm strictly above `1e-6`,
with `c = cos(angle)`, `s = sin(angle)` and `u` the normalized axis, the
returned matrix has `R[i][i] = c + u[i]^2(1-c)`, and off-diagonal entries
`u[i]u[j](1-c) - u[k]s` when `(i,j,k)` is an even permutation of `(0,1,2)`
and `u[i]u[j](1-c) + u[k]s` when it is odd. -/
theorem angleaxis_entry_formulas (aa : Fin 3 → ℝ)
    (h : 1e-6 < Real.sqrt (aa 0 * aa 0 + aa 1 * aa 1 + aa 2 * aa 2)) :
    (∀ i, angleaxis_to_rotation_matrix aa i i =
        Real.cos (aaAngle aa) +
          aaUnit aa i * aaUnit aa i * (1 - Real.cos (aaAngle aa))) ∧
    angleaxis_to_rotation_matrix aa 0 1 =
      aaUnit aa 0 * aaUnit aa 1 * (1 - Real.cos (aaAngle aa)) -
        aaUnit aa 2 * Real.sin (aaAngle aa) ∧
    angleaxis_to_rotation_matrix aa 1 2 =
      aaUnit aa 1 * aaUnit aa 2 * (1 - Real.cos (aaAngle aa)) -
        aaUnit aa 0 * Real.sin (aaAngle aa) ∧
    angleaxis_to_rotation_matrix aa 2 0 =
      aaUnit aa 2 * aaUnit aa 0 * (1 - Real.cos (aaAngle aa)) -
        aaUnit aa 1 * Real.sin (aaAngle aa) ∧
    angleaxis_to_rotation_matrix aa 1 0 =
      aaUnit aa 1 * aaUnit aa 0 * (1 - Real.cos (aaAngle aa)) +
        aaUnit aa 2 * Real.sin (aaAngle aa) ∧
    angleaxis_to_rotation_matrix aa 2 1 =
      aaUnit aa 2 * aaUnit aa 1 * (1 - Real.cos (aaAngle aa)) +
        aaUnit aa 0 * Real.sin (aaAngle aa) ∧
    angleaxis_to_rotation_matrix aa 0 2 =
      aaUnit aa 0 * aaUnit aa 2 * (1 - Real.cos (aaAngle aa)) +
        aaUnit aa 1 * Real.sin (aaAngle aa) := by
  have hlt : 1e-6 < aaAngle aa := h
  have hR : angleaxis_to_rotation_matrix aa =
      rodriguesMatrix (aaUnit aa 0) (aaUnit aa 1) (aaUnit aa 2)
        (Real.cos (aaAngle aa)) (Real.sin (aaAngle aa)) := by
    unfold angleaxis_to_rotation_matrix
    rw [if_pos hlt]
  refine ⟨fun i => ?_, ?_, ?_, ?_, ?_, ?_, ?_⟩ <;> rw [hR]
  · fin_cases i <;> simp [rodriguesMatrix]
  all_goals simp [rodriguesMatrix]

/-- Witness for the amended C2 at `aa = (1,0,0)`. -/
theorem angleaxis_entry_formulas_witness :
    1e-6 < Real.sqrt ((![(1:ℝ), 0, 0]) 0 * (![(1:ℝ), 0, 0]) 0 +
        (![(1:ℝ), 0, 0]) 1 * (![(1:ℝ), 0, 0]) 1 +
        (![(1:ℝ), 0, 0]) 2 * (![(1:ℝ), 0, 0]) 2) ∧
    angleaxis_to_rotation_matrix ![(1:ℝ), 0, 0] 0 1 =
      aaUnit ![(1:ℝ), 0, 0] 0 * aaUnit ![(1:ℝ), 0, 0] 1 *
          (1 - Real.cos (aaAngle ![(1:ℝ), 0, 0])) -
        aaUnit ![(1:ℝ), 0, 0] 2 * Real.sin (aaAngle ![(1:ℝ), 0, 0]) := by
  have h : 1e-6 < Real.sqrt ((![(1:ℝ), 0, 0]) 0 * (![(1:ℝ), 0, 0]) 0 +
      (![(1:ℝ), 0, 0]) 1 * (![(1:ℝ), 0, 0]) 1 +
      (![(1:ℝ), 0, 0]) 2 * (![(1:ℝ), 0, 0]) 2) := by
    norm_num
  exact ⟨h, (angleaxis_entry_formulas ![(1:ℝ), 0, 0] h).2.1⟩

/-- With a unit axis and `c^2 + s^2 = 1`, the Rodrigues matrix satisfies
`R transpose times R = I`. -/
theorem rodriguesMatrix_transpose_mul_self (u0 u1 u2 c s : ℝ)
    (h1 : u0 ^ 2 + u1 ^ 2 + u2 ^ 2 = 1) (h2 : c ^ 2 + s ^ 2 = 1) :
    (rodriguesMatrix u0 u1 u2 c s)ᵀ * rodriguesMatrix u0 u1 u2 c s = 1 := by
  ext i j
  rw [Matrix.mul_apply]
  simp only [Matrix.transpose_apply]
  fin_cases i <;> fin_cases j <;>
    simp [rodriguesMatrix, Fin.sum_univ_three, Matrix.one_apply]
  · linear_combination (s ^ 2 + u0 ^ 2 * (1 - c) ^ 2) * h1 + (1 - u0 ^ 2) * h2
  · linear_combination (u0 * u1 * (1 - c) ^ 2) * h1 - u0 * u1 * h2
  · linear_combination (u0 * u2 * (1 - c) ^ 2) * h1 - u0 * u2 * h2
  · linear_combination (u0 * u1 * (1 - c) ^ 2) * h1 - u0 * u1 * h2
  · linear_combination (s ^ 2 + u1 ^ 2 * (1 - c) ^ 2) * h1 + (1 - u1 ^ 2) * h2
  · linear_combination (u1 * u2 * (1 - c) ^ 2) * h1 - u1 * u2 * h2
  · linear_combination (u0 * u2 * (1 - c) ^ 2) * h1 - u0 * u2 * h2
  · linear_combination (u1 * u2 * (1 - c) ^ 2) * h1 - u1 * u2 * h2
  · linear_combination (1 - c ^ 2 + u2 ^ 2 * (1 - c) ^ 2) * h1 + (u0 ^ 2 + u1 ^ 2) * h2

/-- With a unit axis and `c^2 + s^2 = 1`, the Rodrigues matrix has
determinant one. -/
theorem rodriguesMatrix_det (u0 u1 u2 c s : ℝ)
    (h1 : u0 ^ 2 + u1 ^ 2 + u2 ^ 2 = 1) (h2 : c ^ 2 + s ^ 2 = 1) :
    (rodriguesMatrix u0 u1 u2 c s).det = 1 := by
  rw [Matrix.det_fin_three]
  simp only [rodriguesMatrix, Matrix.cons_val_zero, Matrix.cons_val_one,
    Matrix.head_cons, Matrix.cons_val_two, Matrix.tail_cons, Matrix.head_fin_const,
    Matrix.cons_val', Matrix.cons_val_fin_one, Matrix.empty_val', Matrix.of_apply]
  linear_combination
    (s ^ 2 + c ^ 2 - c ^ 3 + (u0 ^ 2 + u1 ^ 2 + u2 ^ 2) * s ^ 2 * (1 - c)) * h1 + h2

/-- C4: for every axis-angle input, the returned matrix is orthonormal
(`R transpose times R = I`, exactly over the reals) and has determinant 1. -/
theorem angleaxis_orthonormal_det_one (aa : Fin 3 → ℝ) :
    (angleaxis_to_rotation_matrix aa)ᵀ * angleaxis_to_rotation_matrix aa = 1 ∧
    (angleaxis_to_rotation_matrix aa).det = 1 := by
  unfold angleaxis_to_rotation_matrix
  by_cases h : 1e-6 < aaAngle aa
  · rw [if_pos h]
    have hpos : 0 < aaAngle aa := lt_trans (by norm_num) h
    have hne : aaAngle aa ≠ 0 := ne_of_gt hpos
    have hnn : (0:ℝ) ≤ aa 0 * aa 0 + aa 1 * aa 1 + aa 2 * aa 2 := by
      nlinarith [mul_self_nonneg (aa 0), mul_self_nonneg (aa 1), mul_self_nonneg (aa 2)]
    have hsq : aaAngle aa ^ 2 = aa 0 * aa 0 + aa 1 * aa 1 + aa 2 * aa 2 :=
      Real.sq_sqrt hnn
    have h1 : aaUnit aa 0 ^ 2 + aaUnit aa 1 ^ 2 + aaUnit aa 2 ^ 2 = 1 := by
      simp only [aaUnit, Matrix.cons_val_zero, Matrix.cons_val_one,
        Matrix.head_cons, Matrix.cons_val_two, Matrix.tail_cons]
      field_simp
      linear_combination -hsq
    have h2 : Real.cos (aaAngle aa) ^ 2 + Real.sin (aaAngle aa) ^ 2 = 1 := by
      rw [add_comm]
      exact Real.sin_sq_add_cos_sq (aaAngle aa)
    exact ⟨rodriguesMatrix_transpose_mul_self _ _ _ _ _ h1 h2,
      rodriguesMatrix_det _ _ _ _ _ h1 h2⟩
  · rw [if_neg h]
    simp

/-- Embedding of `transform_pointcloud_points` (vis.py lines 375-389):
`tmp` is the n x 4 array with `tmp[:,0:3] = points` and `tmp[:,3] = 1`;
the result is `T.dot(tmp.transpose())[0:3].transpose()`. -/
def transform_pointcloud_points {n : ℕ} (points : Matrix (Fin n) (Fin 3) ℝ)
    (T : Matrix (Fin 4) (Fin 4) ℝ) : Matrix (Fin n) (Fin 3) ℝ :=
  let tmp : Matrix (Fin n) (Fin 4) ℝ :=
    Matrix.of fun i => ![points i 0, points i 1, points i 2, 1]
  Matrix.of fun i =>
    ![(T * tmp.transpose) 0 i, (T * tmp.transpose) 1 i, (T * tmp.transpose) 2 i]

/-- C5: each output entry is the matching row of `T` (a row among the first
three, i.e. after dropping the homogeneous row) dotted with the point
augmented by a homogeneous coordinate of 1. -/
theorem transform_pointcloud_points_formula {n : ℕ}
    (points : Matrix (Fin n) (Fin 3) ℝ) (T : Matrix (Fin 4) (Fin 4) ℝ)
    (i : Fin n) (j : Fin 3) :
    transform_pointcloud_points points T i j =
      ∑ k : Fin 4, T (Fin.castSucc j) k * (![points i 0, points i 1, points i 2, 1]) k := by
  fin_cases j <;>
    simp [transform_pointcloud_points, Matrix.mul_apply, Fin.sum_univ_four,
      show Fin.castSucc (2:Fin 3) = (2:Fin 4) from rfl]

/-- Rows of a matrix as a list of lists, to state shape facts. -/
def matrixRows {m n : ℕ} (M : Matrix (Fin m) (Fin n) ℝ) : List (List ℝ) :=
  (List.finRange m).map fun i => (List.finRange n).map fun j => M i j

/-- C10: the output of `transform_pointcloud_points` has exactly `n` rows
and every row has exactly 3 entries. -/
theorem transform_pointcloud_points_shape {n : ℕ}
    (points : Matrix (Fin n) (Fin 3) ℝ) (T : Matrix (Fin 4) (Fin 4) ℝ) :
    (matrixRows (transform_pointcloud_points points T)).length = n ∧
    (matrixRows (transform_pointcloud_points points T)).map List.length =
      List.replicate n 3 := by
  refine ⟨by simp [matrixRows], ?_⟩
  refine List.eq_replicate_iff.mpr ⟨by simp [matrixRows], ?_⟩
  intro b hb
  simp [matrixRows] at hb
  obtain ⟨i, rfl⟩ := hb
  simp

/-- The 11 fixed local-space camera glyph vertices of `create_camera_actor`
(vis.py lines 74-86). -/
def cam_points : Matrix (Fin 11) (Fin 3) ℝ :=
  !![0, 0, 0;
     -1, -1, 1.5;
     1, -1, 1.5;
     1, 1, 1.5;
     -1, 1, 1.5;
     -0.5, 1, 1.5;
     0.5, 1, 1.5;
     0, 1.2, 1.5;
     1, -0.5, 1.5;
     1, 0.5, 1.5;
     1.2, 0, 1.5]

/-- World-space glyph vertices of `create_camera_actor` (vis.py line 87):
`cam_points = (0.25*cam_points - t).dot(R)`. -/
def create_camera_actor_points (R : Matrix (Fin 3) (Fin 3) ℝ) (t : Fin 3 → ℝ) :
    Matrix (Fin 11) (Fin 3) ℝ :=
  (Matrix.of fun i k => 0.25 * cam_points i k - t k) * R

/-- C7: every glyph vertex is placed at `(0.25*P - t) . R` in row-vector
convention; at the identity pose every vertex is `0.25` times its local
coordinates, and vertex 0 (the apex) sits exactly at the world origin. -/
theorem create_camera_actor_points_formula :
    (∀ (R : Matrix (Fin 3) (Fin 3) ℝ) (t : Fin 3 → ℝ) (i : Fin 11) (j : Fin 3),
        create_camera_actor_points R t i j =
          ∑ k : Fin 3, (0.25 * cam_points i k - t k) * R k j) ∧
    (∀ i j, create_camera_actor_points 1 (fun _ => 0) i j = 0.25 * cam_points i j) ∧
    (∀ j, create_camera_actor_points 1 (fun _ => 0) 0 j = 0) := by
  have hid : ∀ i j, create_camera_actor_points 1 (fun _ => 0) i j =
      0.25 * cam_points i j := by
    intro i j
    rw [create_camera_actor_points, Matrix.mul_one]
    simp
  refine ⟨fun R t i j => by
    rw [create_camera_actor_points, Matrix.mul_apply]
    simp only [Matrix.of_apply], hid, fun j => ?_⟩
  rw [hid]
  fin_cases j <;> norm_num [cam_points]

/-- C6: applying `transform_pointcloud_points` with an affine `T` (bottom
row `[0,0,0,1]`) and then with a left inverse `S` of `T` recovers the
original points exactly. -/
theorem transform_pointcloud_points_roundtrip {n : ℕ}
    (points : Matrix (Fin n) (Fin 3) ℝ) (T S : Matrix (Fin 4) (Fin 4) ℝ)
    (hb0 : T 3 0 = 0) (hb1 : T 3 1 = 0) (hb2 : T 3 2 = 0) (hb3 : T 3 3 = 1)
    (hinv : S * T = 1) :
    transform_pointcloud_points (transform_pointcloud_points points T) S = points := by
  have e : ∀ a b : Fin 4,
      S a 0 * T 0 b + S a 1 * T 1 b + S a 2 * T 2 b + S a 3 * T 3 b =
        (1 : Matrix (Fin 4) (Fin 4) ℝ) a b := by
    intro a b
    have h := congrFun (congrFun hinv a) b
    rw [Matrix.mul_apply, Fin.sum_univ_four] at h
    exact h
  have e00 := e 0 0
  have e01 := e 0 1
  have e02 := e 0 2
  have e03 := e 0 3
  have e10 := e 1 0
  have e11 := e 1 1
  have e12 := e 1 2
  have e13 := e 1 3
  have e20 := e 2 0
  have e21 := e 2 1
  have e22 := e 2 2
  have e23 := e 2 3
  simp only [Matrix.one_apply_eq, Matrix.one_apply_ne, ne_eq, Fin.reduceEq,
    not_false_eq_true] at e00 e01 e02 e03 e10 e11 e12 e13 e20 e21 e22 e23
  ext i j
  fin_cases j <;>
    simp [transform_pointcloud_points, Matrix.mul_apply, Matrix.transpose_apply,
      Fin.sum_univ_four]
  · linear_combination points i 0 * e00 + points i 1 * e01 + points i 2 * e02 + e03 -
      (S 0 3 * points i 0) * hb0 - (S 0 3 * points i 1) * hb1 -
      (S 0 3 * points i 2) * hb2 - S 0 3 * hb3
  · linear_combination points i 0 * e10 + points i 1 * e11 + points i 2 * e12 + e13 -
      (S 1 3 * points i 0) * hb0 - (S 1 3 * points i 1) * hb1 -
      (S 1 3 * points i 2) * hb2 - S 1 3 * hb3
  · linear_combination points i 0 * e20 + points i 1 * e21 + points i 2 * e22 + e23 -
      (S 2 3 * points i 0) * hb0 - (S 2 3 * points i 1) * hb1 -
      (S 2 3 * points i 2) * hb2 - S 2 3 * hb3

/-- Witness for C6: translation by `(1,2,3)` and its inverse, applied to the
single point `(5,6,7)`. -/
theorem transform_pointcloud_points_roundtrip_witness :
    ((!![1, 0, 0, 1; 0, 1, 0, 2; 0, 0, 1, 3; 0, 0, 0, 1] :
        Matrix (Fin 4) (Fin 4) ℝ) 3 0 = 0 ∧
     (!![1, 0, 0, 1; 0, 1, 0, 2; 0, 0, 1, 3; 0, 0, 0, 1] :
        Matrix (Fin 4) (Fin 4) ℝ) 3 1 = 0 ∧
     (!![1, 0, 0, 1; 0, 1, 0, 2; 0, 0, 1, 3; 0, 0, 0, 1] :
        Matrix (Fin 4) (Fin 4) ℝ) 3 2 = 0 ∧
     (!![1, 0, 0, 1; 0, 1, 0, 2; 0, 0, 1, 3; 0, 0, 0, 1] :
        Matrix (Fin 4) (Fin 4) ℝ) 3 3 = 1 ∧
     (!![1, 0, 0, -1; 0, 1, 0, -2; 0, 0, 1, -3; 0, 0, 0, 1] :
        Matrix (Fin 4) (Fin 4) ℝ) *
       !![1, 0, 0, 1; 0, 1, 0, 2; 0, 0, 1, 3; 0, 0, 0, 1] = 1) ∧
    transform_pointcloud_points
      (transform_pointcloud_points (!![5, 6, 7] : Matrix (Fin 1) (Fin 3) ℝ)
        !![1, 0, 0, 1; 0, 1, 0, 2; 0, 0, 1, 3; 0, 0, 0, 1])
      !![1, 0, 0, -1; 0, 1, 0, -2; 0, 0, 1, -3; 0, 0, 0, 1] =
      !![5, 6, 7] := by
  have hb0 : (!![1, 0, 0, 1; 0, 1, 0, 2; 0, 0, 1, 3; 0, 0, 0, 1] :
      Matrix (Fin 4) (Fin 4) ℝ) 3 0 = 0 := by rfl
  have hb1 : (!![1, 0, 0, 1; 0, 1, 0, 2; 0, 0, 1, 3; 0, 0, 0, 1] :
      Matrix (Fin 4) (Fin 4) ℝ) 3 1 = 0 := by rfl
  have hb2 : (!![1, 0, 0, 1; 0, 1, 0, 2; 0, 0, 1, 3; 0, 0, 0, 1] :
      Matrix (Fin 4) (Fin 4) ℝ) 3 2 = 0 := by rfl
  have hb3 : (!![1, 0, 0, 1; 0, 1, 0, 2; 0, 0, 1, 3; 0, 0, 0, 1] :
      Matrix (Fin 4) (Fin 4) ℝ) 3 3 = 1 := by rfl
  have hinv : (!![1, 0, 0, -1; 0, 1, 0, -2; 0, 0, 1, -3; 0, 0, 0, 1] :
      Matrix (Fin 4) (Fin 4) ℝ) *
      !![1, 0, 0, 1; 0, 1, 0, 2; 0, 0, 1, 3; 0, 0, 0, 1] = 1 := by
    ext a b
    fin_cases a <;> fin_cases b <;>
      norm_num [Matrix.mul_apply, Fin.sum_univ_four, Matrix.one_apply,
        Matrix.vecHead, Matrix.vecTail, Fin.ext_iff]
  exact ⟨⟨hb0, hb1, hb2, hb3, hinv⟩,
    transform_pointcloud_points_roundtrip !![5, 6, 7]
      !![1, 0, 0, 1; 0, 1, 0, 2; 0, 0, 1, 3; 0, 0, 0, 1]
      !![1, 0, 0, -1; 0, 1, 0, -2; 0, 0, 1, -3; 0, 0, 0, 1]
      hb0 hb1 hb2 hb3 hinv⟩

/-- A point cloud as produced by the unprojection kernel: a list of 3D
points and, when a color image was supplied, a parallel list of RGB byte
triples. -/
structure PointCloud where
  points : List (Fin 3 → ℝ)
  colors : Option (List (Fin 3 → ℤ))

/-- Conversion of a real to `np.uint8`: truncation toward zero, wrapped
modulo 256. -/
def to_uint8 (x : ℝ) : ℤ :=
  (if 0 ≤ x then ⌊x⌋ else -⌊-x⌋) % 256

/-- Modelled from the spec: the compiled extension
`vis_cython.compute_point_cloud_from_depthmap` (called through the wrapper
at vis.py lines 45-69) is not under `src/`.  Following spec section 4.2: a
pixel `(row, col)` with depth `d` back-projects to the camera-space point
`((col - cx) d / fx, (row - cy) d / fy, d)`; a pixel contributes only if
its depth is valid (positive — every real is finite here); pixels are
scanned in row-major order; the rigid transform `(R, t)` is applied with
the same row-vector convention as the camera glyph (`(p - t) . R`, a choice
the spec leaves open but which is inert at the identity pose); when a color
image is supplied each surviving pixel keeps its RGB triple, otherwise no
color array is produced.  The optional normals input does not change the
points/colors output. -/
def compute_point_cloud_from_depthmap {h w : ℕ} (depth : Fin h → Fin w → ℝ)
    (K R : Matrix (Fin 3) (Fin 3) ℝ) (t : Fin 3 → ℝ)
    (normals : Option (Fin 3 → Fin h → Fin w → ℝ))
    (colors : Option (Fin 3 → Fin h → Fin w → ℤ)) : PointCloud :=
  let validPixels : List (Fin h × Fin w) :=
    ((List.finRange h).map fun r =>
      (List.finRange w).filterMap fun c =>
        if 0 < depth r c then some (r, c) else none).flatten
  let camPoint : Fin h × Fin w → Fin 3 → ℝ := fun p =>
    ![(((p.2 : ℕ) : ℝ) - K 0 2) * depth p.1 p.2 / K 0 0,
      (((p.1 : ℕ) : ℝ) - K 1 2) * depth p.1 p.2 / K 1 1,
      depth p.1 p.2]
  let worldPoint : Fin h × Fin w → Fin 3 → ℝ := fun p j =>
    ∑ k : Fin 3, (camPoint p k - t k) * R k j
  ⟨validPixels.map worldPoint,
   colors.map fun img =>
     validPixels.map fun p => ![img 0 p.1 p.2, img 1 p.1 p.2, img 2 p.1 p.2]⟩

/-- The module-level default intrinsics (vis.py lines 200 and 305). -/
def sun3d_intrinsics : Fin 4 → ℝ := ![0.89115971, 1.18821287, 0.5, 0.5]

/-- Denormalized camera matrix `K` built from the normalized intrinsics
(vis.py lines 209-213 and 307-311). -/
def buildK (intr : Fin 4 → ℝ) (w h : ℕ) : Matrix (Fin 3) (Fin 3) ℝ :=
  !![intr 0 * (w : ℝ), 0, intr 2 * (w : ℝ);
     0, intr 1 * (h : ℝ), intr 3 * (h : ℝ);
     0, 0, 1]

/-- One entry of the `depths` dictionary consumed by `visualize_depths`: a
depth map plus an optional color, which is either a 3-element uniform color
or a full per-pixel image (vis.py lines 206-222). -/
structure VisEntry where
  hgt : ℕ
  wid : ℕ
  depth : Fin hgt → Fin wid → ℝ
  color : Option ((Fin 3 → ℝ) ⊕ (Fin 3 → Fin hgt → Fin wid → ℝ))

/-- Color image resolution of `visualize_depths` (vis.py lines 215-225):
start from `np.ones`, multiply channelwise by a 3-element color, or replace
by a full image, or multiply by 255 when no color is given; finally cast to
`np.uint8`. -/
def resolve_img (e : VisEntry) : Fin 3 → Fin e.hgt → Fin e.wid → ℤ :=
  fun i r c =>
    to_uint8 (match e.color with
      | none => 1 * 255
      | some (Sum.inl col) => 1 * col i
      | some (Sum.inr img) => img i r c)

/-- The point cloud one `visualize_depths` entry contributes (vis.py lines
228-229 and 231-232): unprojection under the identity pose with the
resolved color image. -/
def vis_entry_cloud (intr : Fin 4 → ℝ) (e : VisEntry) : PointCloud :=
  compute_point_cloud_from_depthmap e.depth (buildK intr e.wid e.hgt) 1
    (fun _ => 0) none (some (resolve_img e))

/-- Stacking of the optional color arrays by `np.vstack` (vis.py lines
235-236). -/
def stackColors :
    Option (List (Fin 3 → ℤ)) → Option (List (Fin 3 → ℤ)) →
      Option (List (Fin 3 → ℤ))
  | some a, some b => some (a ++ b)
  | _, _ => none

/-- One iteration of the accumulation loop of `visualize_depths` (vis.py
lines 227-236): the first map initializes the running cloud; every later
map is unprojected and stacked BEFORE the running cloud
(`np.vstack([pointcloud_cur[...], pointcloud[...]])`). -/
def vis_step (intr : Fin 4 → ℝ) (acc : Option PointCloud) (e : VisEntry) :
    Option PointCloud :=
  match acc with
  | none => some (vis_entry_cloud intr e)
  | some pc =>
      some ⟨(vis_entry_cloud intr e).points ++ pc.points,
        stackColors (vis_entry_cloud intr e).colors pc.colors⟩

/-- The merged point cloud assembled by `visualize_depths` (vis.py lines
189-236) before it is handed to the renderer. -/
def visualize_depths_pointcloud (depths : List VisEntry)
    (intrinsics : Option (Fin 4 → ℝ)) : PointCloud :=
  (depths.foldl (vis_step (intrinsics.getD sun3d_intrinsics)) none).getD ⟨[], none⟩

/-- The accumulation loop started from a running cloud `pc` produces the
per-entry clouds in reverse entry order, followed by `pc`. -/
theorem vis_foldl_points (intr : Fin 4 → ℝ) (l : List VisEntry) (pc : PointCloud) :
    ∃ pc2 : PointCloud, l.foldl (vis_step intr) (some pc) = some pc2 ∧
      pc2.points =
        ((l.map fun e => (vis_entry_cloud intr e).points).reverse).flatten ++ pc.points := by
  induction l generalizing pc with
  | nil => exact ⟨pc, rfl, by simp⟩
  | cons e l ih =>
      simp only [List.foldl_cons, vis_step]
      obtain ⟨pc2, h1, h2⟩ :=
        ih ⟨(vis_entry_cloud intr e).points ++ pc.points,
          stackColors (vis_entry_cloud intr e).colors pc.colors⟩
      refine ⟨pc2, h1, ?_⟩
      rw [h2]
      simp

/-- C1: in `visualize_depths`, with more than one depth map the merged
cloud lists the per-map clouds in reverse processing order (each new map is
stacked before the running total), and for two single-pixel depth maps the
merged cloud has exactly 2 points with the second map's point first. -/
theorem visualize_depths_prepend_order :
    (∀ (intr : Option (Fin 4 → ℝ)) (e1 e2 : VisEntry) (rest : List VisEntry),
        (visualize_depths_pointcloud (e1 :: e2 :: rest) intr).points =
          (((e1 :: e2 :: rest).map fun e =>
              (vis_entry_cloud (intr.getD sun3d_intrinsics) e).points).reverse).flatten) ∧
    (visualize_depths_pointcloud
        [⟨1, 1, fun _ _ => 1, none⟩, ⟨1, 1, fun _ _ => 2, none⟩] none).points =
      (vis_entry_cloud sun3d_intrinsics ⟨1, 1, fun _ _ => 2, none⟩).points ++
        (vis_entry_cloud sun3d_intrinsics ⟨1, 1, fun _ _ => 1, none⟩).points ∧
    (vis_entry_cloud sun3d_intrinsics
        (⟨1, 1, fun _ _ => 2, none⟩ : VisEntry)).points.length = 1 ∧
    (vis_entry_cloud sun3d_intrinsics
        (⟨1, 1, fun _ _ => 1, none⟩ : VisEntry)).points.length = 1 ∧
    (visualize_depths_pointcloud
        [⟨1, 1, fun _ _ => 1, none⟩, ⟨1, 1, fun _ _ => 2, none⟩] none).points.length = 2 := by
  have hgen : ∀ (intr : Option (Fin 4 → ℝ)) (e1 e2 : VisEntry) (rest : List VisEntry),
      (visualize_depths_pointcloud (e1 :: e2 :: rest) intr).points =
        (((e1 :: e2 :: rest).map fun e =>
            (vis_entry_cloud (intr.getD sun3d_intrinsics) e).points).reverse).flatten := by
    intro intr e1 e2 rest
    unfold visualize_depths_pointcloud
    rw [List.foldl_cons]
    obtain ⟨pc2, h1, h2⟩ :=
      vis_foldl_points (intr.getD sun3d_intrinsics) (e2 :: rest)
        (vis_entry_cloud (intr.getD sun3d_intrinsics) e1)
    rw [show vis_step (intr.getD sun3d_intrinsics) none e1 =
        some (vis_entry_cloud (intr.getD sun3d_intrinsics) e1) from rfl, h1]
    simp [h2]
  have hlen : ∀ d : ℝ, 0 < d →
      (vis_entry_cloud sun3d_intrinsics (⟨1, 1, fun _ _ => d, none⟩ : VisEntry)).points.length = 1 := by
    intro d hd
    simp [vis_entry_cloud, compute_point_cloud_from_depthmap,
      List.finRange_succ, List.finRange_zero, hd]
  have horder : (visualize_depths_pointcloud
      [⟨1, 1, fun _ _ => 1, none⟩, ⟨1, 1, fun _ _ => 2, none⟩] none).points =
      (vis_entry_cloud sun3d_intrinsics ⟨1, 1, fun _ _ => 2, none⟩).points ++
        (vis_entry_cloud sun3d_intrinsics ⟨1, 1, fun _ _ => 1, none⟩).points := rfl
  refine ⟨hgen, horder, hlen 2 (by norm_num), hlen 1 (by norm_num), ?_⟩
  rw [horder, List.length_append, hlen 2 (by norm_num), hlen 1 (by norm_num)]

/-- The data `visualize_prediction` (vis.py lines 275-348) assembles before
it is handed to the renderer: the unprojected cloud and the two camera
glyph poses (`cam1` from `R1,t1`, `cam2` from `R2,t2`).  The `squeeze`
calls of the source are identities in this typed model. -/
structure PredScene where
  pointcloud : PointCloud
  R1 : Matrix (Fin 3) (Fin 3) ℝ
  t1 : Fin 3 → ℝ
  R2 : Matrix (Fin 3) (Fin 3) ℝ
  t2 : Fin 3 → ℝ

/-- Embedding of the pure prefix of `visualize_prediction` (vis.py lines
298-348): build `K` from the (defaulted) intrinsics, set `R1 = eye`,
`t1 = 0`, set `(R2, t2)` from the supplied pose only when BOTH rotation and
translation are given, rescale the optional image by `(x+0.5)*255` to
bytes, and unproject the depth map under `(R1, t1)`. -/
def visualize_prediction_scene {h w : ℕ} (depth : Fin h → Fin w → ℝ)
    (intrinsics : Option (Fin 4 → ℝ))
    (normals : Option (Fin 3 → Fin h → Fin w → ℝ))
    (rotation : Option (Fin 3 → ℝ)) (translation : Option (Fin 3 → ℝ))
    (image : Option (Fin 3 → Fin h → Fin w → ℝ)) : PredScene :=
  let intr := intrinsics.getD sun3d_intrinsics
  let K := buildK intr w h
  let R2 : Matrix (Fin 3) (Fin 3) ℝ :=
    match rotation, translation with
    | some rot, some _ => angleaxis_to_rotation_matrix rot
    | _, _ => 1
  let t2 : Fin 3 → ℝ :=
    match rotation, translation with
    | some _, some tr => tr
    | _, _ => fun _ => 0
  let img : Option (Fin 3 → Fin h → Fin w → ℤ) :=
    image.map fun im i r c => to_uint8 ((im i r c + 0.5) * 255)
  ⟨compute_point_cloud_from_depthmap depth K 1 (fun _ => 0) normals img,
   1, fun _ => 0, R2, t2⟩

/-- C8: `visualize_prediction` always unprojects under the identity
rotation and zero translation; the supplied pose never reaches the
unprojection call, so the cloud is the same as with no pose supplied. -/
theorem visualize_prediction_identity_unprojection {h w : ℕ}
    (depth : Fin h → Fin w → ℝ) (intrinsics : Option (Fin 4 → ℝ))
    (normals : Option (Fin 3 → Fin h → Fin w → ℝ))
    (rotation translation : Option (Fin 3 → ℝ))
    (image : Option (Fin 3 → Fin h → Fin w → ℝ)) :
    (visualize_prediction_scene depth intrinsics normals rotation translation
        image).pointcloud =
      compute_point_cloud_from_depthmap depth
        (buildK (intrinsics.getD sun3d_intrinsics) w h) 1 (fun _ => 0) normals
        (image.map fun im i r c => to_uint8 ((im i r c + 0.5) * 255)) ∧
    (visualize_prediction_scene depth intrinsics normals rotation translation
        image).pointcloud =
      (visualize_prediction_scene depth intrinsics normals none none
        image).pointcloud ∧
    (visualize_prediction_scene depth intrinsics normals rotation translation
        image).R1 = 1 ∧
    (visualize_prediction_scene depth intrinsics normals rotation translation
        image).t1 = fun _ => 0 :=
  ⟨rfl, rfl, rfl, rfl⟩

/-- C9: the second camera glyph is placed at the supplied pose only when
both rotation and translation are given; when exactly one of them is given
the supplied value is ignored and the glyph gets the identity pose. -/
theorem visualize_prediction_second_camera_pose {h w : ℕ}
    (depth : Fin h → Fin w → ℝ) (intrinsics : Option (Fin 4 → ℝ))
    (normals : Option (Fin 3 → Fin h → Fin w → ℝ))
    (image : Option (Fin 3 → Fin h → Fin w → ℝ)) :
    (∀ rot : Fin 3 → ℝ,
        (visualize_prediction_scene depth intrinsics normals (some rot) none
            image).R2 = 1 ∧
        (visualize_prediction_scene depth intrinsics normals (some rot) none
            image).t2 = fun _ => 0) ∧
    (∀ tr : Fin 3 → ℝ,
        (visualize_prediction_scene depth intrinsics normals none (some tr)
            image).R2 = 1 ∧
        (visualize_prediction_scene depth intrinsics normals none (some tr)
            image).t2 = fun _ => 0) ∧
    (∀ (rot tr : Fin 3 → ℝ),
        (visualize_prediction_scene depth intrinsics normals (some rot)
            (some tr) image).R2 = angleaxis_to_rotation_matrix rot ∧
        (visualize_prediction_scene depth intrinsics normals (some rot)
            (some tr) image).t2 = tr) :=
  ⟨fun _ => ⟨rfl, rfl⟩, fun _ => ⟨rfl, rfl⟩, fun _ _ => ⟨rfl, rfl⟩⟩
